import Mathlib

/-!
# Verification of `MTFindProd.c` (modular product with threaded strategies)

Shallow embedding of the C source `src/Assignment 3/MTFindProd.c`.
The array `gData` is modelled as a `List Nat` (all generated values are
non-negative C ints, far below 2^31, and every intermediate product is
reduced mod `NUM_LIMIT = 9973` so `int` arithmetic never overflows:
the running product stays below 9973 and each factor is at most 3000,
hence each `product * gData[i]` is below 9973 * 3000 < 2^31).
Shared mutable globals are modelled as explicit state records; each
thread body is a function from state to state (a single worker step is
atomic with respect to the state it touches, matching the mutex
discipline of the semaphore variant and the sequential execution of the
stub variant).
-/

/-- Constant `MAX_SIZE` (`#define MAX_SIZE 100000000`). -/
def MAX_SIZE : Nat := 100000000

/-- Constant `MAX_THREADS` (`#define MAX_THREADS 16`). -/
def MAX_THREADS : Nat := 16

/-- Constant `MAX_RANDOM_NUMBER` (`#define MAX_RANDOM_NUMBER 3000`). -/
def MAX_RANDOM_NUMBER : Nat := 3000

/-- Constant `NUM_LIMIT` (`#define NUM_LIMIT 9973`) — the modulus M. -/
def NUM_LIMIT : Nat := 9973

/-- The loop of `SqFindProd` (lines 245-250): running accumulator,
returns 0 as soon as a zero element is seen, otherwise multiplies and
reduces mod `NUM_LIMIT` at every step.  The same loop body is the
element scan of `ThFindProdWithSemaphore` (lines 300-306). -/
def sqLoop (product : Nat) : List Nat → Nat
  | [] => product
  | x :: xs => if x = 0 then 0 else sqLoop (product * x % NUM_LIMIT) xs

/-- Function `SqFindProd` (lines 242-253): sequential modular product of the
whole array with early return on a zero element. -/
def SqFindProd (data : List Nat) : Nat := sqLoop 1 data

/-- Function `ComputeTotalProduct` (lines 323-333): folds the per-thread
products `gThreadProd[0..T)` with `prod *= p; prod %= NUM_LIMIT`. -/
def ComputeTotalProduct (prods : List Nat) : Nat :=
  prods.foldl (fun prod p => prod * p % NUM_LIMIT) 1

/-- Shared variables touched by `InitSharedVars` and the thread
routines: `gThreadProd[MAX_THREADS]`, `gThreadDone[MAX_THREADS]`
(both used only up to `gThreadCount`), and `gDoneThreadCount`. -/
structure SharedState where
  gThreadProd : List Nat
  gThreadDone : List Bool
  gDoneThreadCount : Nat
  deriving Repr, DecidableEq

/-- Function `InitSharedVars` (lines 335-343): for `i < gThreadCount` set
`gThreadDone[i] = false`, `gThreadProd[i] = 1`; `gDoneThreadCount = 0`. -/
def InitSharedVars (gThreadCount : Nat) : SharedState :=
  { gThreadProd := List.replicate gThreadCount 1
    gThreadDone := List.replicate gThreadCount false
    gDoneThreadCount := 0 }

/-- Function `ThFindProd` (lines 267-281): reads its parameters, prints a
message, runs a loop whose body is empty (`// Example operation`) and
returns `NULL`.  It writes no shared variable, so as a state
transformer it is the identity. -/
def ThFindProd (s : SharedState) (_threadNum : Nat) (_start _endIdx : Int) : SharedState :=
  s

/-- The loop of `CalculateIndices` (lines 379-387), unrolled on the
remaining iteration count `k` (the C loop runs `thrdCnt` times).
`currentStart` and the stored `end` index are C ints (`end` is
`currentStart + divisionSize + extra - 1`, which the source computes in
int arithmetic), so they are modelled as `Int`; `remainder` starts at
`arraySize % thrdCnt ≥ 0` and is only ever decremented while positive,
so `Nat` subtraction is exact for it. -/
def calcLoop (divisionSize : Nat) : Nat → Nat → Int → Nat → List (Nat × Int × Int)
  | 0, _, _, _ => []
  | k + 1, i, currentStart, remainder =>
      let extra : Int := if 0 < remainder then 1 else 0
      let endIdx : Int := currentStart + (divisionSize : Int) + extra - 1
      (i, currentStart, endIdx) ::
        calcLoop divisionSize k (i + 1) (endIdx + 1)
          (remainder - (if 0 < remainder then 1 else 0))

/-- Function `CalculateIndices` (lines 374-388): division size `⌊N/T⌋`,
remainder `N mod T`, producing for each thread `i` the triple
`(division number, start index, end index)`. -/
def CalculateIndices (arraySize thrdCnt : Nat) : List (Nat × Int × Int) :=
  calcLoop (arraySize / thrdCnt) thrdCnt 0 0 (arraySize % thrdCnt)

/-- Start offset of segment `j` in the canonical closed form:
`j * ⌊N/T⌋ + min j (N mod T)`. -/
def segStart (arraySize thrdCnt j : Nat) : Nat :=
  j * (arraySize / thrdCnt) + min j (arraySize % thrdCnt)

/-- The join-barrier round of `main` (lines 79-116): `InitSharedVars`,
launch one `ThFindProd` per segment of `CalculateIndices`, join all
threads, then `ComputeTotalProduct`.  Each worker step is a state
transformer; the joins make every worker's effect visible before the
aggregation. -/
def runJoinBarrier (data : List Nat) (gThreadCount : Nat) : SharedState :=
  (CalculateIndices data.length gThreadCount).foldl
    (fun s seg => ThFindProd s seg.1 seg.2.1 seg.2.2)
    (InitSharedVars gThreadCount)

/-- Final product reported by the join-barrier round (line 116-117). -/
def joinBarrierResult (data : List Nat) (gThreadCount : Nat) : Nat :=
  ComputeTotalProduct (runJoinBarrier data gThreadCount).gThreadProd

-- ## Input generation

/-- Function `GetRand` (lines 391-395): `x + r % (y - x + 1)` for a raw
non-negative value `r` returned by `rand()`. -/
def GetRand (x y r : Nat) : Nat := x + r % (y - x + 1)

/-- Function `GenerateInput` (lines 354-362): fill `gData[0..size)` with
`GetRand(1, MAX_RANDOM_NUMBER)` draws, then force a zero at
`indexForZero` when `0 ≤ indexForZero < size`.  The `rand()` stream
(after `srand(RANDOM_SEED)` with the fixed seed 7649) is modelled by a
function `rnd` from draw number to the raw value; determinism is the
fact that the result is a function of `rnd`, `size`, `indexForZero`.
`baseInput` is the fill loop (lines 356-358). -/
def baseInput (rnd : Nat → Nat) (size : Nat) : List Nat :=
  (List.range size).map (fun i => GetRand 1 MAX_RANDOM_NUMBER (rnd i))

/-- The zero-forcing step of `GenerateInput` (lines 359-361) applied
after the fill loop (`baseInput`). -/
def GenerateInput (rnd : Nat → Nat) (size : Nat) (indexForZero : Int) : List Nat :=
  if 0 ≤ indexForZero ∧ indexForZero < size then
    (baseInput rnd size).set indexForZero.toNat 0
  else baseInput rnd size

-- ## The semaphore-based worker

/-- Shared state touched by `ThFindProdWithSemaphore`: the product
slots, the count of threads done with a non-zero product, and the
number of `sem_post(&completed)` signals issued so far. -/
structure SemState where
  gThreadProd : List Nat
  gDoneThreadCount : Nat
  completedPosts : Nat
  deriving Repr, DecidableEq

/-- The half-open-to-closed segment slice `gData[start..end]` that the
worker loop `for (i = start; i <= end; i++)` visits. -/
def segSlice (data : List Nat) (start endIdx : Nat) : List Nat :=
  (data.drop start).take (endIdx + 1 - start)

/-- Function `ThFindProdWithSemaphore` (lines 293-322), one worker's execution
as a state transformer.  The element loop is `sqLoop` on the worker's
slice (same body as `SqFindProd`, with `break` instead of `return`);
the result is stored in `gThreadProd[threadNum]`; when the local
product is zero the worker posts `completed` without touching
`gDoneThreadCount`; otherwise it increments the counter inside the
`mutex` critical section (atomic here, one worker step at a time,
matching the mutex discipline) and posts `completed` exactly when the
incremented counter equals `gThreadCount`. -/
def ThFindProdWithSemaphore (gThreadCount : Nat) (data : List Nat)
    (threadNum start endIdx : Nat) (s : SemState) : SemState :=
  let localProd := sqLoop 1 (segSlice data start endIdx)
  let s1 := { s with gThreadProd := s.gThreadProd.set threadNum localProd }
  if localProd = 0 then
    { s1 with completedPosts := s1.completedPosts + 1 }
  else
    let newCount := s1.gDoneThreadCount + 1
    if newCount = gThreadCount then
      { s1 with gDoneThreadCount := newCount, completedPosts := s1.completedPosts + 1 }
    else
      { s1 with gDoneThreadCount := newCount }

-- ## The modelled main program

/-- Products printed by `main` before the program ends: the sequential
round (line 75) and the join-barrier round (line 116).  The
`exit(0)` at line 120 terminates the process there, so the busy-wait
round (lines 122-172) and the semaphore round (lines 173-224) are
unreachable and print nothing. -/
def mainOutputs (data : List Nat) (gThreadCount : Nat) : List Nat :=
  [SqFindProd data, joinBarrierResult data gThreadCount]

/-- Argument validation and run of `main` (lines 51-120): `argc` must
be 4, `arraySize` in `(0, MAX_SIZE]`, `gThreadCount` in
`(0, MAX_THREADS]`, `indexForZero` in `[-1, arraySize)`; on any
violation the program prints an error and exits with `-1` before any
parallel work.  Otherwise it generates the input and produces the
outputs of the rounds actually executed. -/
def runMain (rnd : Nat → Nat) (argc : Nat) (arraySize gThreadCount indexForZero : Int) :
    Except String (List Nat) :=
  if argc ≠ 4 then .error "Invalid number of arguments!"
  else if arraySize ≤ 0 ∨ arraySize > (MAX_SIZE : Int) then .error "Invalid Array Size"
  else if gThreadCount > (MAX_THREADS : Int) ∨ gThreadCount ≤ 0 then
    .error "Invalid Thread Count"
  else if indexForZero < -1 ∨ indexForZero ≥ arraySize then .error "Invalid index for zero!"
  else
    .ok (mainOutputs (GenerateInput rnd arraySize.toNat indexForZero) gThreadCount.toNat)

/-- Does a run of `main` end in an error exit (`exit(-1)` after one of
the four argument checks, lines 51-68) rather than reaching the
computation rounds? -/
def mainAborts (r : Except String (List Nat)) : Bool :=
  match r with
  | Except.error _ => true
  | Except.ok _ => false

-- ## Basic lemmas about the reducers

/-- On a zero-free list the stepwise-reduced loop equals one reduction
of the plain product at the end. -/
theorem sqLoop_no_zero (l : List Nat) (acc : Nat) (h : 0 ∉ l) (hne : l ≠ []) :
    sqLoop acc l = acc * l.prod % NUM_LIMIT := by
  induction l generalizing acc with
  | nil => exact absurd rfl hne
  | cons x xs ih =>
      have hx : x ≠ 0 := fun hx0 => h (hx0 ▸ List.mem_cons_self x xs)
      have hxs : 0 ∉ xs := fun hm => h (List.mem_cons_of_mem x hm)
      by_cases hxe : xs = []
      · subst hxe
        simp [sqLoop, hx]
      · rw [sqLoop, if_neg hx, ih _ hxs hxe, List.prod_cons]
        rw [Nat.mod_mul_mod, Nat.mul_assoc]

/-- Applying `SqFindProd` to a zero-free array gives the product mod `NUM_LIMIT`. -/
theorem SqFindProd_no_zero (data : List Nat) (h : 0 ∉ data) :
    SqFindProd data = data.prod % NUM_LIMIT := by
  cases hd : data with
  | nil => simp [SqFindProd, sqLoop, hd, NUM_LIMIT]
  | cons x xs =>
      rw [← hd]
      rw [SqFindProd, sqLoop_no_zero data 1 h (by simp [hd]), Nat.one_mul]

/-- The scan stops at the first zero: everything after it is never
examined, so the result is 0 no matter what follows. -/
theorem sqLoop_zero (pre : List Nat) (rest : List Nat) (acc : Nat) :
    sqLoop acc (pre ++ 0 :: rest) = 0 := by
  induction pre generalizing acc with
  | nil => simp [sqLoop]
  | cons x xs ih =>
      by_cases hx : x = 0
      · simp [sqLoop, hx]
      · simp only [List.cons_append, sqLoop, if_neg hx]
        exact ih _

/-- Applying `SqFindProd` to any array containing a zero gives 0. -/
theorem SqFindProd_zero (pre rest : List Nat) :
    SqFindProd (pre ++ 0 :: rest) = 0 := sqLoop_zero pre rest 1

/-- Folding the all-ones initial slots with `ComputeTotalProduct` gives 1. -/
theorem ComputeTotalProduct_replicate_one (n : Nat) :
    ComputeTotalProduct (List.replicate n 1) = 1 := by
  induction n with
  | zero => rfl
  | succ k ih =>
      rw [ComputeTotalProduct, List.replicate_succ, List.foldl_cons]
      exact ih

-- ## Closed form of the partitioner

/-- Step identity for distributing the remainder: taking one unit of
remainder (when any is left) and continuing matches the `min` closed
form. -/
theorem min_remainder_step (j r : Nat) :
    min 1 r + min j (r - min 1 r) = min (j + 1) r := by
  omega

/-- Closed form of the `CalculateIndices` loop: starting at offset
`cs` with `r` units of remainder left, iteration `j` yields division
number `i + j`, start `cs + j*d + min j r` and end
`cs + (j+1)*d + min (j+1) r - 1`. -/
theorem calcLoop_eq (d : Nat) :
    ∀ (k i : Nat) (cs : Int) (r : Nat),
      calcLoop d k i cs r = (List.range k).map (fun j =>
        (i + j, cs + ((j * d + min j r : Nat) : Int),
         cs + (((j + 1) * d + min (j + 1) r : Nat) : Int) - 1)) := by
  intro k
  induction k with
  | zero => intro i cs r; rfl
  | succ n ih =>
      intro i cs r
      rw [List.range_succ_eq_map, List.map_cons, List.map_map]
      rw [calcLoop]
      have hextra : (if 0 < r then (1 : Int) else 0) = ((min 1 r : Nat) : Int) := by
        rcases Nat.eq_zero_or_pos r with hr | hr
        · simp [hr]
        · simp [hr, Nat.min_eq_left hr]
      have hrem : r - (if 0 < r then 1 else 0) = r - min 1 r := by
        rcases Nat.eq_zero_or_pos r with hr | hr
        · simp [hr]
        · simp [hr, Nat.min_eq_left hr]
      rw [ih (i + 1) _ _]
      congr 1
      · simp only [hextra]
        congr 2
        · simp
        · push_cast
          ring
      · rw [hrem]
        apply List.map_congr_left
        intro j hj
        have hmin : min 1 r + min j (r - min 1 r) = min (j + 1) r :=
          min_remainder_step j r
        have hmin' : min 1 r + min (j + 1) (r - min 1 r) = min (j + 1 + 1) r :=
          min_remainder_step (j + 1) r
        simp only [Function.comp, hextra]
        refine Prod.ext (by omega) (Prod.ext ?_ ?_)
        · push_cast
          push_cast at hmin
          nlinarith [hmin]
        · push_cast
          push_cast at hmin'
          nlinarith [hmin']

/-- Closed form of `CalculateIndices N T` over `segStart`. -/
theorem CalculateIndices_eq (arraySize thrdCnt : Nat) :
    CalculateIndices arraySize thrdCnt = (List.range thrdCnt).map (fun j =>
      (j, (segStart arraySize thrdCnt j : Int),
       (segStart arraySize thrdCnt (j + 1) : Int) - 1)) := by
  rw [CalculateIndices, calcLoop_eq]
  apply List.map_congr_left
  intro j hj
  simp [segStart]

/-- The function `segStart` is strictly increasing below `T` once `T ≤ N` (so the
per-thread division size `⌊N/T⌋` is at least 1). -/
theorem segStart_strict_mono (N T : Nat) (hT : 1 ≤ T) (hTN : T ≤ N)
    (a b : Nat) (hab : a < b) : segStart N T a < segStart N T b := by
  have hd : 1 ≤ N / T := Nat.one_le_div_iff (by omega) |>.mpr hTN
  have hmul : a * (N / T) < b * (N / T) :=
    mul_lt_mul_of_pos_right hab (by omega)
  have hmin : min a (N % T) ≤ min b (N % T) := by omega
  simp only [segStart]
  omega

/-- The function `segStart` is monotone. -/
theorem segStart_mono (N T : Nat) (hT : 1 ≤ T) (hTN : T ≤ N)
    (a b : Nat) (hab : a ≤ b) : segStart N T a ≤ segStart N T b := by
  rcases Nat.eq_or_lt_of_le hab with heq | hlt
  · exact le_of_eq (by rw [heq])
  · exact Nat.le_of_lt (segStart_strict_mono N T hT hTN a b hlt)

/-- The segment starts begin at 0 and end at N. -/
theorem segStart_zero (N T : Nat) : segStart N T 0 = 0 := by simp [segStart]

/-- After the last segment the next start is exactly `N`. -/
theorem segStart_top (N T : Nat) (hT : 1 ≤ T) : segStart N T T = N := by
  have hrlt : N % T < T := Nat.mod_lt _ (by omega)
  simp only [segStart, Nat.min_eq_right (Nat.le_of_lt hrlt)]
  exact Nat.div_add_mod N T

/-- Size of segment `j`: the division size plus one extra element for
the first `N mod T` segments. -/
theorem segStart_succ_sub (N T j : Nat) :
    segStart N T (j + 1) - segStart N T j =
      N / T + (if j < N % T then 1 else 0) := by
  simp only [segStart]
  generalize N / T = d
  generalize N % T = r
  have hmul : (j + 1) * d = j * d + d := by ring
  rw [hmul]
  rcases Nat.lt_or_ge j r with h | h
  · rw [min_eq_left (by omega : j + 1 ≤ r), min_eq_left (by omega : j ≤ r),
      if_pos h]
    omega
  · rw [min_eq_right (by omega : r ≤ j + 1), min_eq_right (by omega : r ≤ j),
      if_neg (by omega)]
    omega

/-- Every position `k < N` lies in exactly one segment
`[segStart j, segStart (j+1))`. -/
theorem segStart_cover (N T : Nat) (hT : 1 ≤ T) (hTN : T ≤ N)
    (k : Nat) (hk : k < N) :
    ∃! j, j < T ∧ segStart N T j ≤ k ∧ k < segStart N T (j + 1) := by
  have h0 : segStart N T 0 ≤ k := by rw [segStart_zero]; omega
  set P : Nat → Prop := fun j => segStart N T j ≤ k with hP
  have hdec : DecidablePred P := fun j => inferInstanceAs (Decidable (_ ≤ _))
  set j0 := Nat.findGreatest P (T - 1) with hj0
  have hPj0 : P j0 := @Nat.findGreatest_spec 0 P hdec (T - 1) (Nat.zero_le _) h0
  have hj0le : j0 ≤ T - 1 := Nat.findGreatest_le _
  have hnot : ¬ P (j0 + 1) := by
    by_cases hle : j0 + 1 ≤ T - 1
    · exact Nat.findGreatest_is_greatest (Nat.lt_succ_self _) hle
    · have hj0T : j0 + 1 = T := by omega
      intro hPk
      rw [hP] at hPk
      rw [hj0T, segStart_top N T hT] at hPk
      omega
  refine ⟨j0, ⟨by omega, hPj0, by simpa [hP] using hnot⟩, ?_⟩
  rintro j' ⟨hj'T, hle', hlt'⟩
  by_contra hne
  rw [hP] at hPj0 hnot
  rcases Nat.lt_or_ge j' j0 with hlt | hge
  · have hmono : segStart N T (j' + 1) ≤ segStart N T j0 :=
      segStart_mono N T hT hTN _ _ (by omega)
    omega
  · have hgt : j0 < j' := by omega
    have hmono : segStart N T (j0 + 1) ≤ segStart N T j' :=
      segStart_mono N T hT hTN _ _ (by omega)
    omega

-- ## Further helper lemmas

/-- Folding the stepwise-mod multiplication and reducing once more
equals reducing the plain product once. -/
theorem foldl_mul_mod (l : List Nat) (acc : Nat) :
    l.foldl (fun p x => p * x % NUM_LIMIT) acc % NUM_LIMIT = acc * l.prod % NUM_LIMIT := by
  induction l generalizing acc with
  | nil => simp
  | cons x xs ih =>
      rw [List.foldl_cons, ih, List.prod_cons, Nat.mod_mul_mod, Nat.mul_assoc]

/-- On a non-empty list the stepwise-mod fold is already reduced. -/
theorem foldl_mul_mod_lt (l : List Nat) (acc : Nat) (h : l ≠ []) :
    l.foldl (fun p x => p * x % NUM_LIMIT) acc < NUM_LIMIT := by
  induction l generalizing acc with
  | nil => exact absurd rfl h
  | cons x xs ih =>
      rw [List.foldl_cons]
      by_cases hxe : xs = []
      · subst hxe
        exact Nat.mod_lt _ (by decide)
      · exact ih _ hxe

/-- The identity fold of the join round leaves the state alone. -/
theorem foldl_thFindProd_id (l : List (Nat × Int × Int)) (s : SharedState) :
    l.foldl (fun s seg => ThFindProd s seg.1 seg.2.1 seg.2.2) s = s := by
  induction l generalizing s with
  | nil => rfl
  | cons x xs ih => rw [List.foldl_cons]; exact ih _

/-- One-step characterisation of the semaphore worker: slot written
with the local product, counter incremented exactly on the non-zero
path, `completed` posted exactly when the product is zero or the
incremented counter reaches the thread count. -/
theorem thFindProdWithSemaphore_eq (gThreadCount : Nat) (data : List Nat)
    (threadNum start endIdx : Nat) (s : SemState) :
    ThFindProdWithSemaphore gThreadCount data threadNum start endIdx s =
      { gThreadProd := s.gThreadProd.set threadNum (sqLoop 1 (segSlice data start endIdx))
        gDoneThreadCount :=
          if sqLoop 1 (segSlice data start endIdx) = 0 then s.gDoneThreadCount
          else s.gDoneThreadCount + 1
        completedPosts :=
          if sqLoop 1 (segSlice data start endIdx) = 0 ∨
              (sqLoop 1 (segSlice data start endIdx) ≠ 0 ∧
               s.gDoneThreadCount + 1 = gThreadCount) then
            s.completedPosts + 1
          else s.completedPosts } := by
  rw [ThFindProdWithSemaphore]
  by_cases h0 : sqLoop 1 (segSlice data start endIdx) = 0 <;>
    by_cases hT : s.gDoneThreadCount + 1 = gThreadCount <;>
      simp [h0, hT]

-- ## The claims

/-- C1 (code bug): the spec says the threaded strategy built from
`CalculateIndices`, `ThFindProd` and `ComputeTotalProduct` matches the
sequential reducer on zero-free arrays, and `ThFindProd`'s own header
comment says it stores each division's product in `gThreadProd`; but
`ThFindProd`'s loop body is empty, so the join-barrier round always
reports 1.  On the array `[2]` with one thread the sequential result
is 2 while the threaded result is 1. -/
theorem joinBarrierRound_diverges_from_sequential :
    joinBarrierResult [2] 1 = 1 ∧ SqFindProd [2] = 2 ∧
      joinBarrierResult [2] 1 ≠ SqFindProd [2] := by
  decide

/-- C2 (code bug): the spec says every strategy reports 0 when the
array contains a zero, but the join-barrier strategy's worker
`ThFindProd` publishes nothing, so on the array `[0]` with one thread
the round reports 1, not 0 (the sequential reducer does report 0). -/
theorem joinBarrierRound_misses_zero :
    SqFindProd [0] = 0 ∧ joinBarrierResult [0] 1 = 1 ∧
      joinBarrierResult [0] 1 ≠ 0 := by
  decide

/-- C3 (confirmed): `ThFindProd` is the identity on the shared state —
it writes neither `gThreadProd` nor `gThreadDone` nor
`gDoneThreadCount` — hence after `InitSharedVars` and the join-barrier
round, `ComputeTotalProduct` folds the untouched all-ones slots and
returns 1, whatever the array contents and thread count. -/
theorem thFindProd_frame_join_round_one :
    (∀ (s : SharedState) (n : Nat) (a b : Int), ThFindProd s n a b = s) ∧
    (∀ (data : List Nat) (gThreadCount : Nat),
      joinBarrierResult data gThreadCount = 1) := by
  refine ⟨fun s n a b => rfl, fun data gThreadCount => ?_⟩
  rw [joinBarrierResult, runJoinBarrier, foldl_thFindProd_id]
  exact ComputeTotalProduct_replicate_one gThreadCount

/-- C4 (code bug): the spec promises a duration and a modular product
for each of the four modes, but `main` executes `exit(0)` right after
the join-barrier round (line 120), so even on a valid configuration
(`N = 1`, `T = 1`, no zero index) only the sequential and join-barrier
results are produced — two mode results, not four. -/
theorem main_produces_only_two_mode_results :
    runMain (fun _ => 0) 4 1 1 (-1) = Except.ok [1, 1] ∧
      (mainOutputs (GenerateInput (fun _ => 0) 1 (-1)) 1).length = 2 := by
  constructor
  · rfl
  · rfl

/-- C5 (confirmed): for `1 ≤ T ≤ N` the partitioner produces exactly
`T` triples `(j, start_j, end_j)` with `start_j = j⌊N/T⌋ + min j (N mod T)`
and `end_j = start_{j+1} - 1`: division numbers are `0..T-1` in order,
segments are contiguous and non-empty, sizes are `⌊N/T⌋` plus one for
the first `N mod T` segments (so they differ by at most 1), and every
array position `k < N` lies in exactly one segment. -/
theorem calculateIndices_partition_spec (N T : Nat) (hT : 1 ≤ T) (hTN : T ≤ N) :
    (CalculateIndices N T).length = T ∧
    CalculateIndices N T = (List.range T).map (fun j =>
      (j, (segStart N T j : Int), (segStart N T (j + 1) : Int) - 1)) ∧
    segStart N T 0 = 0 ∧
    segStart N T T = N ∧
    (∀ j, j < T → segStart N T j < segStart N T (j + 1)) ∧
    (∀ j, j < T →
      segStart N T (j + 1) - segStart N T j = N / T + (if j < N % T then 1 else 0)) ∧
    (∀ j j', j < T → j' < T →
      segStart N T (j + 1) - segStart N T j
        ≤ (segStart N T (j' + 1) - segStart N T j') + 1) ∧
    (∀ k, k < N → ∃! j, j < T ∧ segStart N T j ≤ k ∧ k < segStart N T (j + 1)) := by
  refine ⟨?_, CalculateIndices_eq N T, segStart_zero N T, segStart_top N T hT,
    ?_, ?_, ?_, segStart_cover N T hT hTN⟩
  · rw [CalculateIndices_eq]
    simp
  · intro j hj
    exact segStart_strict_mono N T hT hTN j (j + 1) (by omega)
  · intro j hj
    exact segStart_succ_sub N T j
  · intro j j' hj hj'
    rw [segStart_succ_sub, segStart_succ_sub]
    split_ifs <;> omega

/-- Witness for C5 at `N = 5`, `T = 2`. -/
theorem calculateIndices_partition_spec_witness :
    (CalculateIndices 5 2).length = 2 :=
  (calculateIndices_partition_spec 5 2 (by decide) (by decide)).1

/-- C6 (confirmed): `SqFindProd` of a zero-free array is the product
of its elements mod `NUM_LIMIT` (reduced at every step by the loop);
on an array containing a zero it returns 0, and the elements after the
first zero are never examined (the result does not depend on them). -/
theorem sqFindProd_spec :
    (∀ data : List Nat, 0 ∉ data → SqFindProd data = data.prod % NUM_LIMIT) ∧
    (∀ pre rest : List Nat, SqFindProd (pre ++ 0 :: rest) = 0 ∧
      SqFindProd (pre ++ 0 :: rest) = SqFindProd (pre ++ [0])) := by
  refine ⟨SqFindProd_no_zero, fun pre rest => ⟨SqFindProd_zero pre rest, ?_⟩⟩
  rw [SqFindProd_zero pre rest, SqFindProd_zero pre []]

/-- Witness for C6 on `[2, 3]` (zero-free) and `[5, 0, 7]` (zero). -/
theorem sqFindProd_spec_witness :
    SqFindProd [2, 3] = [2, 3].prod % NUM_LIMIT ∧ SqFindProd ([5] ++ 0 :: [7]) = 0 :=
  ⟨sqFindProd_spec.1 [2, 3] (by decide), (sqFindProd_spec.2 [5] [7]).1⟩

/-- C7 (confirmed): one execution of `ThFindProdWithSemaphore`
computes its segment's modular product (the plain product mod
`NUM_LIMIT` when the segment has no zero, 0 — independently of the
elements past the zero — when it has one), stores it in its own
`gThreadProd` slot, leaves `gDoneThreadCount` untouched exactly on the
zero path and increments it otherwise, and posts the `completed`
semaphore exactly once iff the local product is zero or the increment
brings the counter to the thread count. -/
theorem thFindProdWithSemaphore_spec (gThreadCount : Nat) (data : List Nat)
    (threadNum start endIdx : Nat) (s : SemState) :
    (0 ∉ segSlice data start endIdx →
      sqLoop 1 (segSlice data start endIdx) = (segSlice data start endIdx).prod % NUM_LIMIT) ∧
    (∀ pre rest, segSlice data start endIdx = pre ++ 0 :: rest →
      sqLoop 1 (segSlice data start endIdx) = 0) ∧
    (ThFindProdWithSemaphore gThreadCount data threadNum start endIdx s).gThreadProd
      = s.gThreadProd.set threadNum (sqLoop 1 (segSlice data start endIdx)) ∧
    (ThFindProdWithSemaphore gThreadCount data threadNum start endIdx s).gDoneThreadCount
      = (if sqLoop 1 (segSlice data start endIdx) = 0 then s.gDoneThreadCount
         else s.gDoneThreadCount + 1) ∧
    ((ThFindProdWithSemaphore gThreadCount data threadNum start endIdx s).completedPosts
        = s.completedPosts + 1 ↔
      (sqLoop 1 (segSlice data start endIdx) = 0 ∨
        (sqLoop 1 (segSlice data start endIdx) ≠ 0 ∧
         s.gDoneThreadCount + 1 = gThreadCount))) := by
  refine ⟨?_, ?_, ?_, ?_, ?_⟩
  · intro h
    rcases eq_or_ne (segSlice data start endIdx) [] with he | he
    · rw [he]
      simp [sqLoop, NUM_LIMIT]
    · rw [sqLoop_no_zero _ 1 h he, Nat.one_mul]
  · intro pre rest hsl
    rw [hsl]
    exact sqLoop_zero pre rest 1
  · rw [thFindProdWithSemaphore_eq]
  · rw [thFindProdWithSemaphore_eq]
  · rw [thFindProdWithSemaphore_eq]
    by_cases h : sqLoop 1 (segSlice data start endIdx) = 0 ∨
        (sqLoop 1 (segSlice data start endIdx) ≠ 0 ∧
         s.gDoneThreadCount + 1 = gThreadCount)
    · simp only [if_pos h]
      exact iff_of_true trivial h
    · simp only [if_neg h]
      exact iff_of_false (by omega) h

/-- Witness for C7: two threads, segment `[0, 0]` of `[2, 3]`, fresh
state — the local product is 2, stored in slot 0, the counter moves to
1 and no signal is posted. -/
theorem thFindProdWithSemaphore_spec_witness :
    sqLoop 1 (segSlice [2, 3] 0 0) = (segSlice [2, 3] 0 0).prod % NUM_LIMIT ∧
    (ThFindProdWithSemaphore 2 [2, 3] 0 0 0 ⟨[1, 1], 0, 0⟩).gThreadProd
      = [1, 1].set 0 (sqLoop 1 (segSlice [2, 3] 0 0)) :=
  ⟨(thFindProdWithSemaphore_spec 2 [2, 3] 0 0 0 ⟨[1, 1], 0, 0⟩).1 (by decide),
   (thFindProdWithSemaphore_spec 2 [2, 3] 0 0 0 ⟨[1, 1], 0, 0⟩).2.2.1⟩

/-- C8 (counterexample): with `N = 2`, `T = 5` the thread count
exceeds the array size, yet all four argument checks pass (the code
compares `T` only against 0 and `MAX_THREADS`, never against `N`), and
the program proceeds to generate input and run the rounds. -/
theorem validation_accepts_thread_count_above_array_size :
    runMain (fun _ => 0) 4 2 5 (-1) = Except.ok [1, 1] := by
  rfl

/-- C8 (amended, confirmed): the program reports a configuration error
and aborts before any parallel work exactly when `argc ≠ 4`, or
`N ∉ [1, MAX_SIZE]`, or `T ∉ [1, MAX_THREADS]`, or the zero index is
outside `[-1, N)`; `T ≤ N` is not among the checks. -/
theorem runMain_aborts_iff (rnd : Nat → Nat) (argc : Nat) (N T idx : Int) :
    mainAborts (runMain rnd argc N T idx) = true ↔
      ¬ (argc = 4 ∧ 1 ≤ N ∧ N ≤ (MAX_SIZE : Nat) ∧ 1 ≤ T ∧ T ≤ (MAX_THREADS : Nat) ∧
         -1 ≤ idx ∧ idx < N) := by
  rw [runMain]
  split_ifs with h1 h2 h3 h4
  · exact iff_of_true rfl (by omega)
  · exact iff_of_true rfl (by omega)
  · exact iff_of_true rfl (by omega)
  · exact iff_of_true rfl (by omega)
  · have h1' : argc = 4 := not_not.mp h1
    exact iff_of_false (by simp [mainAborts])
      (not_not_intro ⟨h1', by omega, by omega, by omega, by omega, by omega, by omega⟩)

/-- C9 (confirmed): reducing the running product modulo `NUM_LIMIT`
after every multiplication (the fold of `ComputeTotalProduct`, which
is also the reduction discipline of `SqFindProd`'s loop) gives the
same result as multiplying all factors first and reducing once at the
end.  In this model the factors are unbounded naturals, so the
"safe multiplication range" proviso of the claim is satisfied for
every list. -/
theorem computeTotalProduct_eq_mod_once (factors : List Nat) :
    ComputeTotalProduct factors = factors.prod % NUM_LIMIT := by
  cases hf : factors with
  | nil => simp [ComputeTotalProduct, NUM_LIMIT]
  | cons x xs =>
      have hlt := foldl_mul_mod_lt (x :: xs) 1 (by simp)
      have hmod := foldl_mul_mod (x :: xs) 1
      rw [Nat.mod_eq_of_lt hlt] at hmod
      rw [ComputeTotalProduct, hmod, Nat.one_mul]

/-- C10 (confirmed): `GenerateInput` is a pure function of the random
stream, the size and the zero index; every element of the filled base
array lies in `[1, MAX_RANDOM_NUMBER]`; position `indexForZero` is
forced to 0 exactly when `0 ≤ indexForZero < size`; and the generated
array contains a zero element iff a valid zero index was supplied. -/
theorem generateInput_spec (rnd : Nat → Nat) (size : Nat) (idx : Int)
    (hsize : 1 ≤ size) :
    (GenerateInput rnd size idx).length = size ∧
    (∀ v ∈ baseInput rnd size, 1 ≤ v ∧ v ≤ MAX_RANDOM_NUMBER) ∧
    GenerateInput rnd size idx =
      (if 0 ≤ idx ∧ idx < size then (baseInput rnd size).set idx.toNat 0
       else baseInput rnd size) ∧
    (0 ≤ idx ∧ idx < size →
      (GenerateInput rnd size idx).getD idx.toNat 1 = 0) ∧
    (0 ∈ GenerateInput rnd size idx ↔ (0 ≤ idx ∧ idx < size)) := by
  have hbaselen : (baseInput rnd size).length = size := by
    simp [baseInput]
  have hbase : ∀ v ∈ baseInput rnd size, 1 ≤ v ∧ v ≤ MAX_RANDOM_NUMBER := by
    intro v hv
    simp only [baseInput, List.mem_map, List.mem_range] at hv
    obtain ⟨i, hi, rfl⟩ := hv
    have hmod : rnd i % (MAX_RANDOM_NUMBER - 1 + 1) < MAX_RANDOM_NUMBER - 1 + 1 :=
      Nat.mod_lt _ (by decide)
    simp only [GetRand, MAX_RANDOM_NUMBER] at hmod ⊢
    omega
  refine ⟨?_, hbase, rfl, ?_, ?_⟩
  · rw [GenerateInput]
    split_ifs with h
    · rw [List.length_set, hbaselen]
    · exact hbaselen
  · intro h
    have h9 : ((baseInput rnd size).set idx.toNat 0)[idx.toNat]? = some 0 :=
      List.getElem?_set_self (by rw [hbaselen]; omega)
    rw [GenerateInput, if_pos h, List.getD_eq_getElem?_getD, h9, Option.getD_some]
  · constructor
    · intro hmem
      rw [GenerateInput] at hmem
      by_cases h : 0 ≤ idx ∧ idx < size
      · exact h
      · rw [if_neg h] at hmem
        have := hbase 0 hmem
        omega
    · intro h
      rw [GenerateInput, if_pos h]
      have hlt : idx.toNat < ((baseInput rnd size).set idx.toNat 0).length := by
        rw [List.length_set, hbaselen]
        omega
      have hat : ((baseInput rnd size).set idx.toNat 0).get ⟨idx.toNat, hlt⟩ = 0 :=
        List.getElem_set_self hlt
      have hmem : ((baseInput rnd size).set idx.toNat 0).get ⟨idx.toNat, hlt⟩
          ∈ (baseInput rnd size).set idx.toNat 0 := List.getElem_mem hlt
      rw [hat] at hmem
      exact hmem

/-- Witness for C10: size 2, zero forced at index 0. -/
theorem generateInput_spec_witness :
    (GenerateInput (fun _ => 0) 2 0).length = 2 ∧
    (GenerateInput (fun _ => 0) 2 0).getD (0 : Int).toNat 1 = 0 :=
  ⟨(generateInput_spec (fun _ => 0) 2 0 (by decide)).1,
   (generateInput_spec (fun _ => 0) 2 0 (by decide)).2.2.2.1 (by decide)⟩
